import Mathlib

/-!
Verification of the market-data caching and concurrent-refresh subsystem of
the wallet-app repository (src/portfolio_app.py and src/database.py).

The Python code is shallowly embedded: prices are rationals, timestamps are
integers (seconds), SQLite tables and Python dicts become association lists
keyed by ticker, and the threading flags become explicit state records.
Functions keep the source's names where Lean allows it.
-/

/-- Python dict assignment `d[k] = v` / SQLite `INSERT OR REPLACE` on a table
whose primary key is `k`: replace the binding in place if present, else
append. -/
def setKey {α : Type} (k : String) (v : α) : List (String × α) → List (String × α)
  | [] => [(k, v)]
  | (k', v') :: rest => if k = k' then (k, v) :: rest else (k', v') :: setKey k v rest

/-- `PriceCache` (portfolio_app.py lines 74-134): thread-safe in-process TTL
cache. `cache` maps ticker to `(price, timestamp)`; `ttl` is in seconds
(the constructor receives minutes); `hits`/`misses` are the statistics
counters. The mutex is not modelled: every operation runs under it. -/
structure PriceCache where
  cache : List (String × (Rat × Int))
  ttl : Int
  hits : Nat
  misses : Nat
deriving Repr, DecidableEq

/-- Default of the `ttl_minutes` argument of `PriceCache.__init__`. -/
def defaultTtlMinutes : Int := 5

/-- `PriceCache.__init__(ttl_minutes)`: empty map, `ttl = timedelta(minutes=ttl_minutes)`,
zero counters. -/
def PriceCache.init (ttl_minutes : Int) : PriceCache :=
  ⟨[], ttl_minutes * 60, 0, 0⟩

/-- `PriceCache.get(ticker)` at time `now`: if the ticker is present and
`now - timestamp < ttl` it is a hit returning the price, otherwise a miss
returning `None`. Returns the result together with the cache (whose
hit/miss counters were mutated). -/
def PriceCache.get (c : PriceCache) (now : Int) (ticker : String) : Option Rat × PriceCache :=
  match c.cache.lookup ticker with
  | some (price, timestamp) =>
      if now - timestamp < c.ttl then (some price, { c with hits := c.hits + 1 })
      else (none, { c with misses := c.misses + 1 })
  | none => (none, { c with misses := c.misses + 1 })

/-- `PriceCache.set(ticker, price)` at time `now`: `self._cache[ticker] = (price, datetime.now())`. -/
def PriceCache.set (c : PriceCache) (now : Int) (ticker : String) (price : Rat) : PriceCache :=
  { c with cache := setKey ticker (price, now) c.cache }

/-- One row of the durable `price_cache` table (database.py): columns
`last_price`, `last_update`, `company_name`, `currency`; `ticker` is the
primary key and lives as the association-list key. -/
structure CacheRow where
  last_price : Rat
  last_update : Int
  company_name : Option String
  currency : String
deriving Repr, DecidableEq

/-- The durable `price_cache` table, keyed by ticker (primary key). -/
abbrev PriceTable := List (String × CacheRow)

/-- `Database.update_price_cache(ticker, price, company_name, currency)`
(database.py lines 1134-1151): `INSERT OR REPLACE INTO price_cache
(ticker, last_price, last_update, company_name, currency)
VALUES (?, ?, datetime('now'), ?, ?)`, with `now` the current time. -/
def update_price_cache (tbl : PriceTable) (now : Int) (ticker : String) (price : Rat)
    (company_name : Option String) (currency : String) : PriceTable :=
  setKey ticker ⟨price, now, company_name, currency⟩ tbl

/-- One element of the `price_data` list passed to `update_price_cache_batch`:
a dict with keys `ticker`, `price`, `company_name`, `currency`. -/
structure CacheUpdate where
  ticker : String
  price : Rat
  company_name : Option String
  currency : String
deriving Repr, DecidableEq

/-- `Database.update_price_cache_batch(price_data)` (database.py lines
1153-1172): `executemany` of the same `INSERT OR REPLACE`, one transaction,
all rows getting `last_update = datetime('now')`. -/
def update_price_cache_batch (tbl : PriceTable) (now : Int) (updates : List CacheUpdate) :
    PriceTable :=
  updates.foldl (fun t u => setKey u.ticker ⟨u.price, now, u.company_name, u.currency⟩ t) tbl

/-- Projection dropping the `last_update` column of a row (used to state
"the same observable state except `last_update`"). -/
def eraseRow (r : CacheRow) : Rat × Option String × String :=
  (r.last_price, r.company_name, r.currency)

/-- The `price_cache` table with the `last_update` column erased. -/
def eraseLastUpdate (tbl : PriceTable) : List (String × (Rat × Option String × String)) :=
  tbl.map fun kv => (kv.1, eraseRow kv.2)

/-- `Database.get_cached_price(ticker, max_age_minutes)` (database.py lines
1109-1132): `SELECT ... FROM price_cache WHERE ticker = ? AND
datetime(last_update) > datetime('now', '-X minutes')`, i.e. the row is
returned exactly when `last_update > now - 60 * max_age_minutes`. -/
def get_cached_price (tbl : PriceTable) (now : Int) (ticker : String)
    (max_age_minutes : Int) : Option CacheRow :=
  match tbl.lookup ticker with
  | some row => if row.last_update > now - 60 * max_age_minutes then some row else none
  | none => none

/-- One element of the `positions_with_cache` list handed to the background
refresh: only the fields the refresh logic reads (`ticker`,
`cache_age_minutes`; the age is `None` when the ticker was never cached). -/
structure PositionRow where
  ticker : String
  cache_age_minutes : Option Int
deriving Repr, DecidableEq

/-- The `tickers_to_refresh` loop of `_refresh_prices_background`
(portfolio_app.py lines 4475-4479): keep a position's ticker when
`cache_age is None or cache_age > 60`. -/
def staleTickersOf (positions : List PositionRow) : List String :=
  positions.filterMap fun p =>
    match p.cache_age_minutes with
    | none => some p.ticker
    | some a => if a > 60 then some p.ticker else none

/-- The `cache_updates` loop of `_refresh_prices_background` (portfolio_app.py
lines 4493-4504): for each refreshed ticker, look its price up in
`fresh_prices`; only a present, strictly positive price produces an update
row (`if price_data and price_data > 0` then `if price > 0`), with
`company_name = None` and the view's currency. -/
def buildCacheUpdates (tickers : List String) (fresh : List (String × Rat))
    (currency : String) : List CacheUpdate :=
  tickers.filterMap fun t =>
    match fresh.lookup t with
    | some p => if 0 < p then some ⟨t, p, none, currency⟩ else none
    | none => none

/-- Outcome of one `yf.download` grouped call inside
`fetch_multiple_prices_batch`. `ok quotes` abstracts the parsed response:
`quotes.lookup t = some (some p)` is a parsed close price, `some none`
covers a symbol that is absent from the frame / has empty or NaN close /
fails to parse, and a ticker not in `quotes` at all is likewise failed.
`err` is the whole grouped call raising (caught by the outer `except`). -/
inductive DownloadResult
  | ok (quotes : List (String × Option Rat))
  | err
deriving Repr, DecidableEq

/-- First phase of `fetch_multiple_prices_batch` (portfolio_app.py lines
3758-3768): walk the requested tickers, serving hits from the TTL cache
into `prices` and collecting the misses into `uncached_tickers`, threading
the cache (its counters mutate) through the loop. -/
def batchCachePhase (now : Int) : PriceCache → List String →
    List (String × Rat) × List String × PriceCache
  | c, [] => ([], [], c)
  | c, t :: rest =>
      match c.get now t with
      | (some p, c') =>
          let (ps, un, c'') := batchCachePhase now c' rest
          ((t, p) :: ps, un, c'')
      | (none, c') =>
          let (ps, un, c'') := batchCachePhase now c' rest
          (ps, t :: un, c'')

/-- Second phase of `fetch_multiple_prices_batch` on a successful download
(portfolio_app.py lines 3786-3829): for each uncached ticker, a parsed
price goes into `prices` and into the TTL cache; an absent / NaN /
unparsable symbol gets the sentinel `prices[ticker] = 0.0`. -/
def applyQuotes (now : Int) (quotes : List (String × Option Rat)) :
    List (String × Rat) × PriceCache → List String → List (String × Rat) × PriceCache
  | (ps, c), [] => (ps, c)
  | (ps, c), t :: rest =>
      match quotes.lookup t with
      | some (some p) => applyQuotes now quotes ((t, p) :: ps, c.set now t p) rest
      | some none => applyQuotes now quotes ((t, (0 : Rat)) :: ps, c) rest
      | none => applyQuotes now quotes ((t, (0 : Rat)) :: ps, c) rest

/-- The `except` branch of the grouped download (portfolio_app.py lines
3831-3834): every uncached ticker gets `prices[ticker] = 0.0`. -/
def markAllFailed : List (String × Rat) → List String → List (String × Rat)
  | ps, [] => ps
  | ps, t :: rest => markAllFailed ((t, (0 : Rat)) :: ps) rest

/-- `PortfolioApp.fetch_multiple_prices_batch(tickers)` (portfolio_app.py
lines 3741-3843). `dl` is the external source: `dl i` is what the `i`-th
`yf.download` grouped call would produce (the function itself performs at
most the `0`-th). Returns the `prices` dict, the TTL cache after the call,
and how many grouped download calls were made. -/
def fetch_multiple_prices_batch (cache : PriceCache) (now : Int) (tickers : List String)
    (dl : Nat → DownloadResult) : List (String × Rat) × PriceCache × Nat :=
  let r := batchCachePhase now cache tickers
  let prices := r.1
  let uncached := r.2.1
  let c1 := r.2.2
  if uncached.isEmpty then (prices, c1, 0)
  else
    match dl 0 with
    | DownloadResult.ok quotes =>
        let s := applyQuotes now quotes (prices, c1) uncached
        (s.1, s.2, 1)
    | DownloadResult.err => (markAllFailed prices uncached, c1, 1)

/-- `PortfolioApp._refresh_prices_background(positions)` (portfolio_app.py
lines 4469-4520). `fetchResult` is the outcome of the
`fetch_multiple_prices_batch` call (`Except.error` models it raising, which
the outer `except` catches); `writeOk = false` models
`db.update_price_cache_batch` raising. Returns the value of
`positions_refresh_in_progress` after the `finally` block, the durable
table, and the number of batch-fetch invocations made. -/
def refreshPricesBackground (positions : List PositionRow)
    (fetchResult : Except Unit (List (String × Rat))) (writeOk : Bool)
    (now : Int) (currency : String) (tbl : PriceTable) : Bool × PriceTable × Nat :=
  let ts := staleTickersOf positions
  if ts.isEmpty then (false, tbl, 0)
  else
    match fetchResult with
    | Except.error _ => (false, tbl, 1)
    | Except.ok fresh =>
        let updates := buildCacheUpdates ts fresh currency
        if updates.isEmpty then (false, tbl, 1)
        else if writeOk then (false, update_price_cache_batch tbl now updates, 1)
        else (false, tbl, 1)

/-- Per-scope refresh state: the scope's `*_refresh_in_progress` flag and
the number of background refresh runs spawned so far (each spawned run is
one `threading.Thread(target=..._background)`). -/
structure RefreshScope where
  in_progress : Bool
  runs_started : Nat
deriving Repr, DecidableEq

/-- Step 3 of `load_positions_hybrid` (portfolio_app.py lines 4209-4216)
together with `start_async_price_refresh` (lines 4456-4467): when
`needs_refresh and self.auto_refresh_enabled` and the positions flag is
not set, set the flag and spawn a background run; otherwise do nothing
(the request is dropped, not queued). -/
def requestPositionsRefresh (auto_refresh_enabled needs_refresh : Bool)
    (s : RefreshScope) : RefreshScope :=
  if needs_refresh && auto_refresh_enabled then
    if !s.in_progress then ⟨true, s.runs_started + 1⟩ else s
  else s

/-- `PortfolioApp.start_async_watchlist_refresh(watchlist)` (portfolio_app.py
lines 5738-5755): if the watchlist flag is set, return immediately;
otherwise set it and spawn the background run. -/
def start_async_watchlist_refresh (s : RefreshScope) : RefreshScope :=
  if s.in_progress then s else ⟨true, s.runs_started + 1⟩

/-- A position's durable-cache age is stale when it is `None` (never cached)
or greater than 60 minutes (`load_positions_hybrid`, lines 4199-4204). -/
def isStaleAge : Option Int → Bool
  | none => true
  | some a => a > 60

/-- Whether a call of `load_positions_hybrid(force_refresh)` starts a
background refresh (portfolio_app.py lines 4196-4216): `needs_refresh`
(forced, or some position's cache age is `None` or `> 60`) and
`auto_refresh_enabled` and the positions flag not already set. -/
def loadPositionsHybridStartsRefresh (force_refresh auto_refresh_enabled in_progress : Bool)
    (positions : List PositionRow) : Bool :=
  (force_refresh || positions.any fun p => isStaleAge p.cache_age_minutes)
    && auto_refresh_enabled && !in_progress

/-- Error classes of a network call, as the `retry_on_failure` decorator
sees them: `transport` stands for the exceptions in the decorator's
`exceptions` tuple (`requests.RequestException`, `requests.Timeout`);
`parse` for any other exception, which the decorator's `except` clause
does not catch. -/
inductive NetError
  | transport
  | parse
deriving Repr, DecidableEq

/-- Which errors the decorator catches when applied as in the source:
`exceptions=(requests.RequestException, requests.Timeout)`. -/
def transportOnly : NetError → Bool
  | NetError.transport => true
  | NetError.parse => false

/-- The `for attempt in range(max_attempts)` loop of `retry_on_failure`
(portfolio_app.py lines 137-177): `attempt` is the current index,
`remaining` the attempts left, `current_delay` the next sleep. A success
returns; a caught failure sleeps `current_delay` and doubles it unless it
was the last attempt, in which case the exception is re-raised; an
uncatchable exception propagates at once. Returns the result and the list
of sleeps performed. -/
def retryLoop {α : Type} (catchable : NetError → Bool) (action : Nat → Except NetError α) :
    Nat → Nat → Rat → Rat → Except NetError α × List Rat
  | _, 0, _, _ => (Except.error NetError.transport, [])
  | attempt, 1, _, _ => (action attempt, [])
  | attempt, r + 2, current_delay, backoff =>
      match action attempt with
      | Except.ok a => (Except.ok a, [])
      | Except.error e =>
          if catchable e then
            let s := retryLoop catchable action (attempt + 1) (r + 1)
              (current_delay * backoff) backoff
            (s.1, current_delay :: s.2)
          else (Except.error e, [])

/-- `retry_on_failure(max_attempts, delay, backoff, exceptions)` applied to
an action (portfolio_app.py lines 137-177). -/
def retryOnFailure {α : Type} (max_attempts : Nat) (delay backoff : Rat)
    (catchable : NetError → Bool) (action : Nat → Except NetError α) :
    Except NetError α × List Rat :=
  retryLoop catchable action 0 max_attempts delay backoff

/-- `ConnectionPool` state (database.py lines 21-91): `available` is the
`Queue` of free connections (ids), `maxsize` its bound (`pool_size`),
`next_conn` the id `_create_connection` would hand out next, and `closed`
the connections that have been `close()`d. -/
structure PoolState where
  available : List Nat
  maxsize : Nat
  next_conn : Nat
  closed : List Nat
deriving Repr, DecidableEq

/-- Acquire phase of `ConnectionPool.get_connection` (database.py lines
63-72): `self.pool.get(timeout=5)`; on `Empty` (modelled as: the queue is
empty) it does not raise but falls back to `_create_connection()`.
Returns the connection, whether it was the fallback, and the state. -/
def poolAcquire (s : PoolState) : Nat × Bool × PoolState :=
  match s.available with
  | c :: rest => (c, false, ⟨rest, s.maxsize, s.next_conn, s.closed⟩)
  | [] => (s.next_conn, true, ⟨[], s.maxsize, s.next_conn + 1, s.closed⟩)

/-- Release phase (`finally`) of `ConnectionPool.get_connection` (database.py
lines 73-80): `put_nowait(conn)`, which succeeds whenever the queue holds
fewer than `maxsize` items; only when it raises `Full` is the connection
closed instead. -/
def poolRelease (s : PoolState) (conn : Nat) : PoolState :=
  if s.available.length < s.maxsize then
    ⟨s.available ++ [conn], s.maxsize, s.next_conn, s.closed⟩
  else ⟨s.available, s.maxsize, s.next_conn, conn :: s.closed⟩

/-- A pool with 5 configured connections, all currently checked out by other
borrowers (free queue empty), next fresh connection id 100. -/
def c6pool : PoolState := ⟨[], 5, 100, []⟩

/-- A durable-cache row last updated at time 0. -/
def c9row : CacheRow := ⟨100, 0, none, "USD"⟩

/-- A download oracle whose first grouped call fails transiently and whose
second would succeed with a price of 123 for AAPL. -/
def c7dl : Nat → DownloadResult :=
  fun i => if i = 0 then DownloadResult.err else DownloadResult.ok [("AAPL", some 123)]

/-! Shared lemmas about `setKey` and `List.lookup`. -/

theorem lookup_setKey_self {α : Type} (k : String) (v : α) (l : List (String × α)) :
    (setKey k v l).lookup k = some v := by
  induction l with
  | nil => simp [setKey, List.lookup]
  | cons kv rest ih =>
      obtain ⟨k', v'⟩ := kv
      by_cases h : k = k'
      · subst h; simp [setKey, List.lookup]
      · have hb : (k == k') = false := beq_eq_false_iff_ne.mpr h
        simp [setKey, h, List.lookup, hb, ih]

theorem lookup_setKey_ne {α : Type} {k k' : String} (h : k ≠ k') (v : α)
    (l : List (String × α)) : (setKey k' v l).lookup k = l.lookup k := by
  have hb : (k == k') = false := beq_eq_false_iff_ne.mpr h
  induction l with
  | nil => simp [setKey, List.lookup, hb]
  | cons kv rest ih =>
      obtain ⟨k'', v''⟩ := kv
      by_cases h2 : k' = k''
      · subst h2; simp [setKey, List.lookup, hb]
      · simp only [setKey, if_neg h2, List.lookup]
        by_cases h3 : k = k''
        · subst h3; simp [beq_iff_eq]
        · have hb3 : (k == k'') = false := beq_eq_false_iff_ne.mpr h3
          simp [hb3, ih]

theorem setKey_setKey_same {α : Type} (k : String) (v w : α) (l : List (String × α)) :
    setKey k v (setKey k w l) = setKey k v l := by
  induction l with
  | nil => simp [setKey]
  | cons kv rest ih =>
      obtain ⟨k', v'⟩ := kv
      by_cases h : k = k'
      · subst h; simp [setKey]
      · simp [setKey, h, ih]

theorem map_setKey {α β : Type} (f : α → β) (k : String) (v : α) (l : List (String × α)) :
    (setKey k v l).map (fun kv => (kv.1, f kv.2))
      = setKey k (f v) (l.map fun kv => (kv.1, f kv.2)) := by
  induction l with
  | nil => simp [setKey]
  | cons kv rest ih =>
      obtain ⟨k', v'⟩ := kv
      by_cases h : k = k'
      · subst h; simp [setKey]
      · simp [setKey, h, ih]

/-- Claim C4: TTL cache validity window — `PriceCache.get ticker` returns the
stored price if and only if an entry for that ticker exists and
`now - fetched_at < ttl` (the constructor's default being 5 minutes), and
returns `none` otherwise; in particular, after `set "AAPL" 100` at `t = 0`,
`get "AAPL"` at `t` = 4 minutes returns 100 and at `t` = 6 minutes returns
nothing. -/
theorem C4_ttl_cache_validity_window :
    (∀ (c : PriceCache) (now : Int) (t : String) (p : Rat),
        (c.get now t).1 = some p
          ↔ ∃ ts, c.cache.lookup t = some (p, ts) ∧ now - ts < c.ttl)
    ∧ (PriceCache.init defaultTtlMinutes).ttl = 5 * 60
    ∧ (((PriceCache.init defaultTtlMinutes).set 0 "AAPL" 100).get (4 * 60) "AAPL").1 = some 100
    ∧ (((PriceCache.init defaultTtlMinutes).set 0 "AAPL" 100).get (6 * 60) "AAPL").1 = none := by
  refine ⟨fun c now t p => ?_, rfl, by decide, by decide⟩
  cases h : c.cache.lookup t with
  | none => simp [PriceCache.get, h]
  | some pt =>
      obtain ⟨q, ts⟩ := pt
      by_cases hlt : now - ts < c.ttl
      · simp only [PriceCache.get, h, if_pos hlt]
        constructor
        · rintro ⟨rfl⟩; exact ⟨ts, rfl, hlt⟩
        · rintro ⟨ts', hts', _⟩
          injection hts' with h2; injection h2 with h3 h4; simp [h3]
      · simp only [PriceCache.get, h, if_neg hlt]
        constructor
        · intro hc; exact absurd hc (by simp)
        · rintro ⟨ts', hts', hlt'⟩
          injection hts' with h2; injection h2 with h3 h4
          subst h4; exact absurd hlt' hlt

/-- Claim C8: upsert idempotence — running `update_price_cache` twice with
identical ticker, price, company name and currency (at times `t1` then
`t2`) leaves the `price_cache` table in the same observable state except
the `last_update` column, and every upsert sets the row's `last_update` to
the current time. -/
theorem C8_upsert_idempotent (tbl : PriceTable) (t1 t2 : Int) (tk : String)
    (p : Rat) (n : Option String) (c : String) :
    eraseLastUpdate
        (update_price_cache (update_price_cache tbl t1 tk p n c) t2 tk p n c)
      = eraseLastUpdate (update_price_cache tbl t1 tk p n c)
    ∧ (update_price_cache tbl t1 tk p n c).lookup tk = some ⟨p, t1, n, c⟩ := by
  constructor
  · show ((setKey tk ⟨p, t2, n, c⟩ (setKey tk ⟨p, t1, n, c⟩ tbl)).map fun kv =>
        (kv.1, eraseRow kv.2)) = (setKey tk ⟨p, t1, n, c⟩ tbl).map fun kv =>
        (kv.1, eraseRow kv.2)
    rw [setKey_setKey_same, map_setKey, map_setKey]
    rfl
  · exact lookup_setKey_self tk ⟨p, t1, n, c⟩ tbl

/-- Claim C9 counterexample: an entry whose age is exactly the `max_age`
boundary (row last updated at time 0, read at `now = 3600` with
`max_age_minutes = 60`, so `now - last_update = 60 * max_age` and in
particular `now - last_update ≤ 60 * max_age`) is NOT returned by
`get_cached_price`, contradicting the claim that an entry exactly at the
max-age boundary is still returned. -/
theorem C9_counterexample :
    (3600 : Int) - c9row.last_update ≤ 60 * 60
    ∧ get_cached_price [("AAPL", c9row)] 3600 "AAPL" 60 = none := by decide

/-- Claim C9 (amended): age-bounded durable read — `get_cached_price` returns
the stored row if and only if the row exists for the ticker and
`now - last_update < 60 * max_age_minutes` holds STRICTLY; an entry
exactly at the max-age boundary is not returned. -/
theorem C9_age_bounded_read (tbl : PriceTable) (now : Int) (t : String)
    (m : Int) (row : CacheRow) :
    get_cached_price tbl now t m = some row
      ↔ tbl.lookup t = some row ∧ now - row.last_update < 60 * m := by
  cases h : tbl.lookup t with
  | none => simp [get_cached_price, h]
  | some r =>
      by_cases hlt : r.last_update > now - 60 * m
      · simp only [get_cached_price, h, if_pos hlt]
        constructor
        · rintro ⟨rfl⟩; exact ⟨rfl, by omega⟩
        · rintro ⟨hr, _⟩; injection hr with hr; simp [hr]
      · simp only [get_cached_price, h, if_neg hlt]
        constructor
        · intro hc; exact absurd hc (by simp)
        · rintro ⟨hr, hlt'⟩
          injection hr with hr; subst hr
          exact absurd (by omega : r.last_update > now - 60 * m) hlt

/-- Characterization of a stale durable-cache age: `None` (never cached) or
strictly more than 60 minutes. -/
theorem isStaleAge_eq_true (o : Option Int) :
    isStaleAge o = true ↔ o = none ∨ ∃ a, o = some a ∧ 60 < a := by
  cases o with
  | none => simp [isStaleAge]
  | some a =>
      simp only [isStaleAge, gt_iff_lt, decide_eq_true_eq]
      constructor
      · intro hlt; exact Or.inr ⟨a, rfl, hlt⟩
      · rintro (hc | ⟨a', ha', hlt⟩)
        · exact absurd hc (by simp)
        · injection ha' with ha'; omega

/-- Claim C1: single-flight per scope — a refresh request arriving while the
scope's in-progress flag is set is dropped for both scopes (positions and
watchlist): it changes nothing (no run spawned, nothing queued), any number
of such requests still change nothing, and starting from an idle scope one
request followed by `m` further requests spawns exactly one background run;
each spawned background run invokes the batch fetcher exactly once. -/
theorem C1_single_flight_per_scope (s : RefreshScope) (n : Nat)
    (h : s.in_progress = true) :
    (∀ auto needs, requestPositionsRefresh auto needs s = s)
    ∧ start_async_watchlist_refresh s = s
    ∧ (∀ auto needs, Nat.iterate (requestPositionsRefresh auto needs) n s = s)
    ∧ Nat.iterate start_async_watchlist_refresh n s = s
    ∧ (∀ k m, Nat.iterate start_async_watchlist_refresh m
        (start_async_watchlist_refresh ⟨false, k⟩) = ⟨true, k + 1⟩)
    ∧ (∀ auto needs k m, Nat.iterate (requestPositionsRefresh auto needs) m
        (requestPositionsRefresh true true ⟨false, k⟩) = ⟨true, k + 1⟩)
    ∧ (∀ positions fetchResult writeOk now currency tbl,
        staleTickersOf positions ≠ [] →
        (refreshPricesBackground positions fetchResult writeOk
            now currency tbl).2.2 = 1) := by
  have hreq : ∀ auto needs, requestPositionsRefresh auto needs s = s := by
    intro auto needs
    simp [requestPositionsRefresh, h]
  have hwl : start_async_watchlist_refresh s = s := by
    simp [start_async_watchlist_refresh, h]
  have hwl1 : ∀ k : Nat, start_async_watchlist_refresh ⟨false, k⟩
      = (⟨true, k + 1⟩ : RefreshScope) := by
    intro k; simp [start_async_watchlist_refresh]
  have hrq1 : ∀ k : Nat, requestPositionsRefresh true true ⟨false, k⟩
      = (⟨true, k + 1⟩ : RefreshScope) := by
    intro k; simp [requestPositionsRefresh]
  have hwlfix : ∀ k : Nat, start_async_watchlist_refresh ⟨true, k⟩
      = (⟨true, k⟩ : RefreshScope) := by
    intro k; simp [start_async_watchlist_refresh]
  have hrqfix : ∀ (auto needs : Bool) (k : Nat),
      requestPositionsRefresh auto needs ⟨true, k⟩ = (⟨true, k⟩ : RefreshScope) := by
    intro auto needs k; simp [requestPositionsRefresh]
  refine ⟨hreq, hwl, fun auto needs => Function.iterate_fixed (hreq auto needs) n,
    Function.iterate_fixed hwl n, ?_, ?_, ?_⟩
  · intro k m
    rw [hwl1 k]
    exact Function.iterate_fixed (hwlfix (k + 1)) m
  · intro auto needs k m
    rw [hrq1 k]
    exact Function.iterate_fixed (hrqfix auto needs (k + 1)) m
  · intro positions fetchResult writeOk now currency tbl hne
    simp only [refreshPricesBackground]
    rw [if_neg (by simpa [List.isEmpty_iff] using hne)]
    cases fetchResult with
    | error e => rfl
    | ok fresh =>
        dsimp only
        split
        · rfl
        · split <;> rfl

/-- Witness for C1 at a concrete running scope: a watchlist refresh request
arriving while the flag is set leaves the state unchanged. -/
theorem C1_single_flight_per_scope_witness :
    start_async_watchlist_refresh ⟨true, 1⟩ = (⟨true, 1⟩ : RefreshScope) :=
  (C1_single_flight_per_scope ⟨true, 1⟩ 3 rfl).2.1

/-- Claim C2: the scope is never left stuck Running — whatever the batch
fetch outcome (including it raising) and whether or not the durable-cache
write raises, `_refresh_prices_background` ends with
`positions_refresh_in_progress = False`, so a later refresh request for
the scope is accepted and spawns a new run. -/
theorem C2_never_stuck_running (positions : List PositionRow)
    (fetchResult : Except Unit (List (String × Rat))) (writeOk : Bool)
    (now : Int) (currency : String) (tbl : PriceTable) (k : Nat) :
    (refreshPricesBackground positions fetchResult writeOk now currency tbl).1 = false
    ∧ requestPositionsRefresh true true
        ⟨(refreshPricesBackground positions fetchResult writeOk now currency tbl).1, k⟩
      = ⟨true, k + 1⟩ := by
  have h1 : (refreshPricesBackground positions fetchResult writeOk now currency tbl).1
      = false := by
    simp only [refreshPricesBackground]
    split
    · rfl
    · cases fetchResult with
      | error e => rfl
      | ok fresh =>
          dsimp only
          split
          · rfl
          · split <;> rfl
  refine ⟨h1, ?_⟩
  rw [h1]
  simp [requestPositionsRefresh]

/-- Claim C5 counterexample: a non-forced hybrid load over a position whose
durable-cache age is `None` (stale by the policy) while a refresh for the
scope is already in progress does NOT start a background refresh, refuting
"started if and only if some symbol's age is None or greater than 60". -/
theorem C5_counterexample :
    isStaleAge (PositionRow.mk "AAPL" none).cache_age_minutes = true
    ∧ loadPositionsHybridStartsRefresh false true true [PositionRow.mk "AAPL" none]
        = false := by decide

/-- Claim C5 (amended): on a non-forced hybrid load of the positions scope, a
background refresh is started if and only if some position's durable-cache
age is `None` or greater than 60 minutes AND auto-refresh is enabled AND no
positions refresh is already in progress; in particular, if every
position's age is at most 60 minutes, no refresh is started. -/
theorem C5_staleness_policy (auto prog : Bool) (positions : List PositionRow) :
    (loadPositionsHybridStartsRefresh false auto prog positions = true
       ↔ (∃ p ∈ positions, p.cache_age_minutes = none
            ∨ ∃ a, p.cache_age_minutes = some a ∧ 60 < a)
          ∧ auto = true ∧ prog = false)
    ∧ ((∀ p ∈ positions, ∃ a, p.cache_age_minutes = some a ∧ a ≤ 60) →
        loadPositionsHybridStartsRefresh false auto prog positions = false) := by
  have hiff : loadPositionsHybridStartsRefresh false auto prog positions = true
      ↔ (∃ p ∈ positions, p.cache_age_minutes = none
           ∨ ∃ a, p.cache_age_minutes = some a ∧ 60 < a)
         ∧ auto = true ∧ prog = false := by
    constructor
    · intro hb
      simp only [loadPositionsHybridStartsRefresh, Bool.false_or, Bool.and_eq_true,
        Bool.not_eq_true', List.any_eq_true] at hb
      obtain ⟨⟨⟨p, hp, hst⟩, ha⟩, hpr⟩ := hb
      exact ⟨⟨p, hp, (isStaleAge_eq_true _).mp hst⟩, ha, hpr⟩
    · rintro ⟨⟨p, hp, hst⟩, ha, hpr⟩
      simp only [loadPositionsHybridStartsRefresh, Bool.false_or, Bool.and_eq_true,
        Bool.not_eq_true', List.any_eq_true]
      exact ⟨⟨⟨p, hp, (isStaleAge_eq_true _).mpr hst⟩, ha⟩, hpr⟩
  refine ⟨hiff, fun hall => ?_⟩
  cases hb : loadPositionsHybridStartsRefresh false auto prog positions with
  | false => rfl
  | true =>
      obtain ⟨⟨p, hp, hstale⟩, -, -⟩ := hiff.mp hb
      obtain ⟨a, ha, hle⟩ := hall p hp
      rcases hstale with hnone | ⟨a', ha', hlt⟩
      · rw [hnone] at ha; cases ha
      · rw [ha'] at ha; injection ha with ha; omega

/-- Witness for C5 (amended) at a concrete input: one position 10 minutes
old, auto-refresh on, nothing in flight — no refresh is started. -/
theorem C5_staleness_policy_witness :
    loadPositionsHybridStartsRefresh false true false [PositionRow.mk "MSFT" (some 10)]
      = false :=
  (C5_staleness_policy true false [PositionRow.mk "MSFT" (some 10)]).2 (by
    intro p hp
    rw [List.mem_singleton] at hp
    subst hp
    exact ⟨10, rfl, by norm_num⟩)

/-- Claim C6 counterexample: with all 5 pooled connections checked out (free
queue empty), acquisition times out and falls back to a fresh connection
(id 100); releasing it puts it INTO the pool (`available = [100]`, nothing
closed), refuting "that fallback connection is closed immediately after
use rather than being returned to the pool". -/
theorem C6_counterexample :
    (poolAcquire c6pool).2.1 = true
    ∧ poolRelease (poolAcquire c6pool).2.2 (poolAcquire c6pool).1
        = ⟨[100], 5, 101, []⟩ := by decide

/-- Claim C6 (amended): when acquiring from the pool times out, the acquire
does not raise — it creates a fresh fallback connection and yields it to
the caller — but on release the fallback is treated exactly like a pooled
connection: it is returned to the pool whenever the queue holds fewer than
`maxsize` connections, and is closed only when the queue is full. -/
theorem C6_pool_timeout_fallback (s : PoolState) (h : s.available = []) :
    (poolAcquire s).1 = s.next_conn
    ∧ (poolAcquire s).2.1 = true
    ∧ (∀ (s' : PoolState) (conn : Nat), s'.available.length < s'.maxsize →
        poolRelease s' conn = ⟨s'.available ++ [conn], s'.maxsize, s'.next_conn, s'.closed⟩)
    ∧ (∀ (s' : PoolState) (conn : Nat), ¬ s'.available.length < s'.maxsize →
        poolRelease s' conn = ⟨s'.available, s'.maxsize, s'.next_conn, conn :: s'.closed⟩) := by
  refine ⟨?_, ?_, ?_, ?_⟩
  · simp [poolAcquire, h]
  · simp [poolAcquire, h]
  · intro s' conn hroom; simp [poolRelease, hroom]
  · intro s' conn hfull; simp [poolRelease, hfull]

/-- Witness for C6 (amended) at the concrete exhausted pool: the acquire
yields the fresh fallback connection id. -/
theorem C6_pool_timeout_fallback_witness :
    (poolAcquire c6pool).1 = c6pool.next_conn :=
  (C6_pool_timeout_fallback c6pool rfl).1

/-- Claim C7 counterexample: under a download oracle whose first grouped call
fails transiently and whose second attempt would succeed with AAPL = 123,
`fetch_multiple_prices_batch` performs exactly one download call and maps
AAPL to the failure sentinel 0.0 — whereas the same call wrapped by the
retry policy of `retry_on_failure` (3 attempts, delay 1, backoff 2,
transient transport errors caught) would have retried after a 1-second
sleep and succeeded. The grouped price fetch is therefore not wrapped by
the claimed retry-with-backoff policy. -/
theorem C7_counterexample :
    (fetch_multiple_prices_batch (PriceCache.init defaultTtlMinutes) 0 ["AAPL"] c7dl).2.2 = 1
    ∧ (fetch_multiple_prices_batch (PriceCache.init defaultTtlMinutes) 0
          ["AAPL"] c7dl).1.lookup "AAPL" = some 0
    ∧ retryOnFailure 3 1 2 transportOnly
        (fun i => match c7dl i with
          | DownloadResult.ok quotes => Except.ok quotes
          | DownloadResult.err => Except.error NetError.transport)
      = (Except.ok [("AAPL", some 123)], [1]) := by
  refine ⟨by decide, by decide, by rfl⟩

/-- Claim C7 (amended): the retry-with-backoff wrapper `retry_on_failure`
exists with exactly the claimed policy — as applied in the source (3
attempts, starting delay 1s doubling each retry, catching only transient
transport exceptions) it retries a transport failure after sleeping 1s,
fails fast without any sleep on a parse/validation failure, and on
exhaustion has slept 1s and 2s — but it is applied to the Yahoo
ticker-search call, not to the grouped price fetch:
`fetch_multiple_prices_batch` never performs more than one grouped
download call, whatever the outcome. -/
theorem C7_retry_policy :
    retryOnFailure 3 1 2 transportOnly
        (fun i => if i = 0 then Except.error NetError.transport else Except.ok (42 : Rat))
      = (Except.ok 42, [1])
    ∧ retryOnFailure 3 1 2 transportOnly
        (fun _ => (Except.error NetError.parse : Except NetError Rat))
      = (Except.error NetError.parse, [])
    ∧ retryOnFailure 3 1 2 transportOnly
        (fun _ => (Except.error NetError.transport : Except NetError Rat))
      = (Except.error NetError.transport, [1, 2])
    ∧ (∀ (cache : PriceCache) (now : Int) (tickers : List String)
          (dl : Nat → DownloadResult),
        (fetch_multiple_prices_batch cache now tickers dl).2.2 ≤ 1) := by
  refine ⟨by rfl, by rfl, by norm_num [retryOnFailure, retryLoop, transportOnly], ?_⟩
  intro cache now tickers dl
  simp only [fetch_multiple_prices_batch]
  split
  · exact Nat.zero_le 1
  · split <;> exact Nat.le_refl 1

/-- Unfolding `List.lookup` over a cons cell with propositional equality. -/
theorem lookup_cons {α : Type} (t k : String) (v : α) (l : List (String × α)) :
    ((k, v) :: l).lookup t = if t = k then some v else l.lookup t := by
  by_cases h : t = k
  · subst h; simp [List.lookup]
  · simp [List.lookup, beq_eq_false_iff_ne.mpr h, h]

/-- `PriceCache.get` never changes the underlying map or the TTL, only the
hit/miss counters. -/
theorem PriceCache.get_preserves (c : PriceCache) (now : Int) (t : String) :
    (c.get now t).2.cache = c.cache ∧ (c.get now t).2.ttl = c.ttl := by
  unfold PriceCache.get
  cases c.cache.lookup t with
  | none => exact ⟨rfl, rfl⟩
  | some pt =>
      obtain ⟨p, ts⟩ := pt
      dsimp only
      split <;> exact ⟨rfl, rfl⟩

/-- The price part of `PriceCache.get` depends only on the map and the TTL,
not on the counters. -/
theorem PriceCache.get_congr {c c' : PriceCache} (now : Int) (t : String)
    (h1 : c.cache = c'.cache) (h2 : c.ttl = c'.ttl) :
    (c.get now t).1 = (c'.get now t).1 := by
  unfold PriceCache.get
  rw [h1, h2]
  cases c'.cache.lookup t with
  | none => rfl
  | some pt =>
      obtain ⟨p, ts⟩ := pt
      dsimp only
      split <;> rfl

/-- Characterization of the cache phase of `fetch_multiple_prices_batch`:
the threaded TTL cache keeps its map and TTL; a ticker lands in
`uncached_tickers` exactly when it was requested and missed; a hit ticker's
entry in `prices` is its cached price; a missed ticker has no entry in
`prices` yet. -/
theorem batchCachePhase_spec (now : Int) (ts : List String) : ∀ (c : PriceCache),
    (batchCachePhase now c ts).2.2.cache = c.cache
    ∧ (batchCachePhase now c ts).2.2.ttl = c.ttl
    ∧ (∀ t, t ∈ (batchCachePhase now c ts).2.1 ↔ t ∈ ts ∧ (c.get now t).1 = none)
    ∧ (∀ t p, t ∈ ts → (c.get now t).1 = some p →
        (batchCachePhase now c ts).1.lookup t = some p)
    ∧ (∀ t, (c.get now t).1 = none → (batchCachePhase now c ts).1.lookup t = none) := by
  induction ts with
  | nil =>
      intro c
      refine ⟨rfl, rfl, fun t => ?_, fun t p ht => absurd ht (List.not_mem_nil t), fun t _ => rfl⟩
      simp [batchCachePhase]
  | cons t0 rest ih =>
      intro c
      obtain ⟨hmap, httl⟩ := PriceCache.get_preserves c now t0
      have hcongr : ∀ t, ((c.get now t0).2.get now t).1 = (c.get now t).1 := fun t =>
        PriceCache.get_congr now t hmap httl
      obtain ⟨ihmap, ihttl, ihun, ihhit, ihmiss⟩ := ih (c.get now t0).2
      cases hget : (c.get now t0) with
      | mk r c' =>
          have hcongr' : ∀ t, (c'.get now t).1 = (c.get now t).1 := by
            intro t; have := hcongr t; rwa [hget] at this
          have ihmap' : (batchCachePhase now c' rest).2.2.cache = c.cache := by
            have := ihmap; rw [hget] at this; rw [this, ← hmap, hget]
          have ihttl' : (batchCachePhase now c' rest).2.2.ttl = c.ttl := by
            have := ihttl; rw [hget] at this; rw [this, ← httl, hget]
          have ihun' : ∀ t, t ∈ (batchCachePhase now c' rest).2.1
              ↔ t ∈ rest ∧ (c.get now t).1 = none := by
            intro t
            have := ihun t; rw [hget] at this; rw [this, hcongr' t]
          have ihhit' : ∀ t p, t ∈ rest → (c.get now t).1 = some p →
              (batchCachePhase now c' rest).1.lookup t = some p := by
            intro t p ht hp
            have := ihhit t p; rw [hget] at this
            exact this ht ((hcongr' t).symm ▸ hp)
          have ihmiss' : ∀ t, (c.get now t).1 = none →
              (batchCachePhase now c' rest).1.lookup t = none := by
            intro t hp
            have := ihmiss t; rw [hget] at this
            exact this ((hcongr' t).symm ▸ hp)
          cases r with
          | some p0 =>
              have hred : batchCachePhase now c (t0 :: rest)
                  = (((t0, p0) :: (batchCachePhase now c' rest).1,
                      (batchCachePhase now c' rest).2.1,
                      (batchCachePhase now c' rest).2.2)) := by
                simp only [batchCachePhase, hget]
              rw [hred]
              refine ⟨ihmap', ihttl', fun t => ?_, fun t p ht hp => ?_, fun t hp => ?_⟩
              · rw [ihun' t]
                constructor
                · rintro ⟨htr, hn⟩; exact ⟨List.mem_cons_of_mem t0 htr, hn⟩
                · rintro ⟨htr, hn⟩
                  rcases List.mem_cons.mp htr with rfl | htr'
                  · rw [hget] at hn; cases hn
                  · exact ⟨htr', hn⟩
              · rw [lookup_cons]
                by_cases ht0 : t = t0
                · subst ht0
                  rw [hget] at hp
                  injection hp with hp
                  simp [hp]
                · rw [if_neg ht0]
                  exact ihhit' t p (List.mem_of_ne_of_mem ht0 ht) hp
              · rw [lookup_cons]
                by_cases ht0 : t = t0
                · subst ht0; rw [hget] at hp; cases hp
                · rw [if_neg ht0]; exact ihmiss' t hp
          | none =>
              have hred : batchCachePhase now c (t0 :: rest)
                  = (((batchCachePhase now c' rest).1,
                      t0 :: (batchCachePhase now c' rest).2.1,
                      (batchCachePhase now c' rest).2.2)) := by
                simp only [batchCachePhase, hget]
              rw [hred]
              refine ⟨ihmap', ihttl', fun t => ?_, fun t p ht hp => ?_, fun t hp => ?_⟩
              · constructor
                · intro hmem
                  rcases List.mem_cons.mp hmem with rfl | htr
                  · exact ⟨List.mem_cons_self t rest, by rw [hget]⟩
                  · obtain ⟨htr', hn⟩ := (ihun' t).mp htr
                    exact ⟨List.mem_cons_of_mem t0 htr', hn⟩
                · rintro ⟨htr, hn⟩
                  rcases List.mem_cons.mp htr with rfl | htr'
                  · exact List.mem_cons_self t _
                  · exact List.mem_cons_of_mem t0 ((ihun' t).mpr ⟨htr', hn⟩)
              · rcases List.mem_cons.mp ht with rfl | htr
                · rw [hget] at hp; cases hp
                · exact ihhit' t p htr hp
              · exact ihmiss' t hp

/-- Characterization of the success phase of `fetch_multiple_prices_batch`:
after `applyQuotes`, a ticker of the uncached list maps to its parsed price
when the grouped response has one, and to the sentinel 0.0 when the symbol
is absent or unparsable; other tickers keep their phase-one entry. -/
theorem applyQuotes_lookup (now : Int) (quotes : List (String × Option Rat))
    (un : List String) : ∀ (ps : List (String × Rat)) (c : PriceCache) (t : String),
    (applyQuotes now quotes (ps, c) un).1.lookup t
      = if t ∈ un then
          some (match quotes.lookup t with
            | some (some p) => p
            | some none => 0
            | none => 0)
        else ps.lookup t := by
  induction un with
  | nil => intro ps c t; simp [applyQuotes]
  | cons u rest ih =>
      intro ps c t
      have hstep : ∀ (v : Rat) (c2 : PriceCache),
          (applyQuotes now quotes ((u, v) :: ps, c2) rest).1.lookup t
            = if t ∈ rest then
                some (match quotes.lookup t with
                  | some (some p) => p
                  | some none => 0
                  | none => 0)
              else ((u, v) :: ps).lookup t := fun v c2 => ih ((u, v) :: ps) c2 t
      by_cases htr : t ∈ rest
      · have hmem : t ∈ u :: rest := List.mem_cons_of_mem u htr
        cases hq : quotes.lookup u with
        | none =>
            simp only [applyQuotes, hq]
            rw [hstep 0 c, if_pos htr, if_pos hmem]
        | some o =>
            cases o with
            | none =>
                simp only [applyQuotes, hq]
                rw [hstep 0 c, if_pos htr, if_pos hmem]
            | some p =>
                simp only [applyQuotes, hq]
                rw [hstep p (c.set now u p), if_pos htr, if_pos hmem]
      · by_cases htu : t = u
        · subst htu
          have hmem : t ∈ t :: rest := List.mem_cons_self t rest
          cases hq : quotes.lookup t with
          | none =>
              simp only [applyQuotes, hq]
              rw [hstep 0 c, if_neg htr, if_pos hmem, lookup_cons, if_pos rfl]
          | some o =>
              cases o with
              | none =>
                  simp only [applyQuotes, hq]
                  rw [hstep 0 c, if_neg htr, if_pos hmem, lookup_cons, if_pos rfl]
              | some p =>
                  simp only [applyQuotes, hq]
                  rw [hstep p (c.set now t p), if_neg htr, if_pos hmem, lookup_cons,
                    if_pos rfl]
        · have hmem : t ∉ u :: rest := by
            intro hc
            rcases List.mem_cons.mp hc with h | h
            · exact htu h
            · exact htr h
          cases hq : quotes.lookup u with
          | none =>
              simp only [applyQuotes, hq]
              rw [hstep 0 c, if_neg htr, if_neg hmem, lookup_cons, if_neg htu]
          | some o =>
              cases o with
              | none =>
                  simp only [applyQuotes, hq]
                  rw [hstep 0 c, if_neg htr, if_neg hmem, lookup_cons, if_neg htu]
              | some p =>
                  simp only [applyQuotes, hq]
                  rw [hstep p (c.set now u p), if_neg htr, if_neg hmem, lookup_cons,
                    if_neg htu]

/-- Characterization of the failure branch of `fetch_multiple_prices_batch`:
after `markAllFailed`, every uncached ticker maps to the sentinel 0.0 and
other tickers keep their phase-one entry. -/
theorem markAllFailed_lookup (un : List String) :
    ∀ (ps : List (String × Rat)) (t : String),
    (markAllFailed ps un).lookup t = if t ∈ un then some 0 else ps.lookup t := by
  induction un with
  | nil => intro ps t; simp [markAllFailed]
  | cons u rest ih =>
      intro ps t
      simp only [markAllFailed]
      rw [ih ((u, (0 : Rat)) :: ps) t]
      by_cases htr : t ∈ rest
      · rw [if_pos htr, if_pos (List.mem_cons_of_mem u htr)]
      · by_cases htu : t = u
        · subst htu
          rw [if_neg htr, if_pos (List.mem_cons_self t rest), lookup_cons, if_pos rfl]
        · have hmem : t ∉ u :: rest := by
            intro hc
            rcases List.mem_cons.mp hc with h | h
            · exact htu h
            · exact htr h
          rw [if_neg htr, if_neg hmem, lookup_cons, if_neg htu]

/-- Claim C10: whenever `fetch_multiple_prices_batch tickers` returns, its
result map contains an entry for every requested ticker; every uncached
symbol whose fetch failed (absent from the grouped response, unparsable or
NaN close, or the whole grouped call failing) is mapped to the sentinel
price 0.0 rather than omitted; and downstream, the background refresh's
cache-update construction treats only prices strictly greater than 0 as
successes. -/
theorem C10_batch_result_totality (cache : PriceCache) (now : Int)
    (tickers : List String) (dl : Nat → DownloadResult) :
    (∀ t ∈ tickers,
        ((fetch_multiple_prices_batch cache now tickers dl).1.lookup t).isSome = true)
    ∧ (∀ t ∈ tickers, (cache.get now t).1 = none →
        (∀ quotes, dl 0 = DownloadResult.ok quotes →
            quotes.lookup t = none ∨ quotes.lookup t = some none) →
        (fetch_multiple_prices_batch cache now tickers dl).1.lookup t = some 0)
    ∧ (∀ (ts : List String) (fresh : List (String × Rat)) (currency : String),
        ∀ u ∈ buildCacheUpdates ts fresh currency, 0 < u.price) := by
  obtain ⟨hmap, httl, hun, hhit, hmiss⟩ := batchCachePhase_spec now tickers cache
  refine ⟨?_, ?_, ?_⟩
  · intro t ht
    by_cases hm : (cache.get now t).1 = none
    · have htun : t ∈ (batchCachePhase now cache tickers).2.1 := (hun t).mpr ⟨ht, hm⟩
      have hne : ¬ (batchCachePhase now cache tickers).2.1.isEmpty = true := by
        intro hc
        rw [List.isEmpty_iff] at hc
        rw [hc] at htun
        exact List.not_mem_nil t htun
      simp only [fetch_multiple_prices_batch]
      rw [if_neg hne]
      cases hdl : dl 0 with
      | ok quotes =>
          dsimp only
          rw [applyQuotes_lookup, if_pos htun]
          rfl
      | err =>
          dsimp only
          rw [markAllFailed_lookup, if_pos htun]
          rfl
    · obtain ⟨p, hp⟩ := Option.ne_none_iff_exists'.mp hm
      have hlk : (batchCachePhase now cache tickers).1.lookup t = some p := hhit t p ht hp
      have htun : t ∉ (batchCachePhase now cache tickers).2.1 := by
        intro hc
        exact hm ((hun t).mp hc).2
      simp only [fetch_multiple_prices_batch]
      by_cases hemp : (batchCachePhase now cache tickers).2.1.isEmpty = true
      · rw [if_pos hemp, hlk]; rfl
      · rw [if_neg hemp]
        cases hdl : dl 0 with
        | ok quotes =>
            dsimp only
            rw [applyQuotes_lookup, if_neg htun, hlk]
            rfl
        | err =>
            dsimp only
            rw [markAllFailed_lookup, if_neg htun, hlk]
            rfl
  · intro t ht hm hfail
    have htun : t ∈ (batchCachePhase now cache tickers).2.1 := (hun t).mpr ⟨ht, hm⟩
    have hne : ¬ (batchCachePhase now cache tickers).2.1.isEmpty = true := by
      intro hc
      rw [List.isEmpty_iff] at hc
      rw [hc] at htun
      exact List.not_mem_nil t htun
    simp only [fetch_multiple_prices_batch]
    rw [if_neg hne]
    cases hdl : dl 0 with
    | ok quotes =>
        dsimp only
        rw [applyQuotes_lookup, if_pos htun]
        rcases hfail quotes hdl with hq | hq <;> rw [hq]
    | err =>
        dsimp only
        rw [markAllFailed_lookup, if_pos htun]
  · intro ts fresh currency u hu
    simp only [buildCacheUpdates, List.mem_filterMap] at hu
    obtain ⟨t, ht, hft⟩ := hu
    cases hq : fresh.lookup t with
    | none => rw [hq] at hft; cases hft
    | some p =>
        rw [hq] at hft
        dsimp only at hft
        by_cases hp : 0 < p
        · rw [if_pos hp] at hft
          injection hft with hft
          rw [← hft]
          exact hp
        · rw [if_neg hp] at hft; cases hft

/-- Witness for C10 at a concrete input: a single never-cached ticker whose
grouped download raises ends up mapped to the sentinel 0.0. -/
theorem C10_batch_result_totality_witness :
    (fetch_multiple_prices_batch (PriceCache.init defaultTtlMinutes) 0 ["AAPL"]
        (fun _ => DownloadResult.err)).1.lookup "AAPL" = some 0 :=
  (C10_batch_result_totality (PriceCache.init defaultTtlMinutes) 0 ["AAPL"]
      (fun _ => DownloadResult.err)).2.1 "AAPL" (List.mem_singleton.mpr rfl) (by decide)
    (fun quotes hq => by cases hq)

/-- Claim C3: partial failure isolation — when one batch refresh over the
never-cached symbols A, B, C fetches successful prices `pa` for A and `pc`
for C (both positive) while B's close is missing/NaN (so the fetch maps B
to the 0.0 sentinel), the background refresh writes new durable
`price_cache` rows (price and `last_update = now`) for A and C only, and
B's row keeps exactly its previous value. -/
theorem C3_partial_failure_isolation (tbl : PriceTable) (pa pc : Rat) (now : Int)
    (currency : String) (ha : 0 < pa) (hc : 0 < pc) :
    (refreshPricesBackground
        [⟨"A", none⟩, ⟨"B", none⟩, ⟨"C", none⟩]
        (Except.ok (fetch_multiple_prices_batch (PriceCache.init defaultTtlMinutes) now
          ["A", "B", "C"]
          (fun _ => DownloadResult.ok [("A", some pa), ("B", none), ("C", some pc)])).1)
        true now currency tbl).2.1.lookup "A"
      = some ⟨pa, now, none, currency⟩
    ∧ (refreshPricesBackground
        [⟨"A", none⟩, ⟨"B", none⟩, ⟨"C", none⟩]
        (Except.ok (fetch_multiple_prices_batch (PriceCache.init defaultTtlMinutes) now
          ["A", "B", "C"]
          (fun _ => DownloadResult.ok [("A", some pa), ("B", none), ("C", some pc)])).1)
        true now currency tbl).2.1.lookup "C"
      = some ⟨pc, now, none, currency⟩
    ∧ (refreshPricesBackground
        [⟨"A", none⟩, ⟨"B", none⟩, ⟨"C", none⟩]
        (Except.ok (fetch_multiple_prices_batch (PriceCache.init defaultTtlMinutes) now
          ["A", "B", "C"]
          (fun _ => DownloadResult.ok [("A", some pa), ("B", none), ("C", some pc)])).1)
        true now currency tbl).2.1.lookup "B"
      = tbl.lookup "B" := by
  have hfetch : (fetch_multiple_prices_batch (PriceCache.init defaultTtlMinutes) now
      ["A", "B", "C"]
      (fun _ => DownloadResult.ok [("A", some pa), ("B", none), ("C", some pc)])).1
      = [("C", pc), ("B", 0), ("A", pa)] := by rfl
  have hstale : staleTickersOf [⟨"A", none⟩, ⟨"B", none⟩, ⟨"C", none⟩]
      = ["A", "B", "C"] := by rfl
  have hupd : buildCacheUpdates ["A", "B", "C"] [("C", pc), ("B", 0), ("A", pa)] currency
      = [⟨"A", pa, none, currency⟩, ⟨"C", pc, none, currency⟩] := by
    simp [buildCacheUpdates, List.lookup, ha, hc]
  have hmain : (refreshPricesBackground
      [⟨"A", none⟩, ⟨"B", none⟩, ⟨"C", none⟩]
      (Except.ok (fetch_multiple_prices_batch (PriceCache.init defaultTtlMinutes) now
        ["A", "B", "C"]
        (fun _ => DownloadResult.ok [("A", some pa), ("B", none), ("C", some pc)])).1)
      true now currency tbl).2.1
      = setKey "C" ⟨pc, now, none, currency⟩
          (setKey "A" ⟨pa, now, none, currency⟩ tbl) := by
    rw [hfetch]
    simp only [refreshPricesBackground, hstale, hupd]
    rfl
  rw [hmain]
  refine ⟨?_, ?_, ?_⟩
  · rw [lookup_setKey_ne (by decide) _ _, lookup_setKey_self]
  · rw [lookup_setKey_self]
  · rw [lookup_setKey_ne (by decide) _ _, lookup_setKey_ne (by decide) _ _]

/-- Witness for C3 at a concrete input: with B's durable row previously
`(7, last_update 100)`, prices 2 for A and 3 for C and a failed B, the
refresh leaves B's row exactly as it was. -/
theorem C3_partial_failure_isolation_witness :
    (refreshPricesBackground [⟨"A", none⟩, ⟨"B", none⟩, ⟨"C", none⟩]
        (Except.ok (fetch_multiple_prices_batch (PriceCache.init defaultTtlMinutes) 200
          ["A", "B", "C"]
          (fun _ => DownloadResult.ok [("A", some 2), ("B", none), ("C", some 3)])).1)
        true 200 "USD" [("B", ⟨7, 100, none, "USD"⟩)]).2.1.lookup "B"
      = some ⟨7, 100, none, "USD"⟩ := by
  have h := (C3_partial_failure_isolation [("B", ⟨7, 100, none, "USD"⟩)] 2 3 200 "USD"
    (by norm_num) (by norm_num)).2.2
  rw [h]
  decide
